import Mathlib

/-!
Verification development for a minimal GPT implementation (a JAX/Haiku port of
minGPT).  The repository ships two notebooks; the library modules
`mingpt/model.py`, `mingpt/trainer.py` and `mingpt/utils.py` are referenced by
the notebooks but their sources are not part of the source tree, so the
corresponding definitions below are modelled from the specification document
and are marked as such in their doc comments.  The `AdditionDataset` class is
fully present in the first notebook and is embedded from that source.

Real-valued tensor arithmetic is embedded over `ℚ`.  The transcendental scalar
primitives of the network (the exponential of softmax, the logarithm of
cross-entropy, the activation and normalisation scalars, the cosine of the
learning-rate schedule) are passed as explicit function parameters, so every
definition stays computable; theorems state their hypotheses on those
parameters explicitly.
-/

set_option maxHeartbeats 1000000

/-- A vector of `n` rational numbers, modelling a 1-D tensor of floats. -/
abbrev Vec (n : ℕ) : Type := Fin n → ℚ

/-- Dot product of two vectors. -/
def dot {n : ℕ} (u v : Vec n) : ℚ := ∑ i, u i * v i

/-- Matrix-vector product: a linear layer (without bias) applied to a vector. -/
def mulVec {m n : ℕ} (M : Fin m → Fin n → ℚ) (v : Vec n) : Vec m :=
  fun i => dot (M i) v

/-- Modelled from the spec: the `GPTConfig` record of `mingpt/model.py`
(not in the source tree); field names follow the notebook call
`GPTConfig(vocab_size, block_size, n_layer=2, n_head=4, n_embd=128)`. -/
structure GPTConfig where
  vocab_size : ℕ
  block_size : ℕ
  n_layer : ℕ
  n_head : ℕ
  n_embd : ℕ

/-- Width of one attention head: embedding width divided by head count. -/
def GPTConfig.head_dim (cfg : GPTConfig) : ℕ := cfg.n_embd / cfg.n_head

/-- Modelled from the spec: the scalar numeric primitives used by the forward
pass of `mingpt/model.py` (not in the source tree).  `exp` is the softmax
exponential, `scale` is the attention score scale `1 / sqrt(head_dim)`,
`act` is the feed-forward activation (GELU), and `rsqrtEps` maps a variance
to `1 / sqrt(variance + eps)` as used by layer normalisation. -/
structure Prims where
  exp : ℚ → ℚ
  scale : ℚ
  act : ℚ → ℚ
  rsqrtEps : ℚ → ℚ

/-- Modelled from the spec: the learned tensors of one transformer block
(layer-norm gains and biases, per-head query/key/value projections, the output
projection over concatenated heads, and the two feed-forward layers with a
4x width expansion). -/
structure BlockParams (cfg : GPTConfig) where
  ln1g : Vec cfg.n_embd
  ln1b : Vec cfg.n_embd
  wq : Fin cfg.n_head → Fin cfg.head_dim → Fin cfg.n_embd → ℚ
  bq : Fin cfg.n_head → Vec cfg.head_dim
  wk : Fin cfg.n_head → Fin cfg.head_dim → Fin cfg.n_embd → ℚ
  bk : Fin cfg.n_head → Vec cfg.head_dim
  wv : Fin cfg.n_head → Fin cfg.head_dim → Fin cfg.n_embd → ℚ
  bv : Fin cfg.n_head → Vec cfg.head_dim
  wo : Fin cfg.n_embd → Fin cfg.n_head → Fin cfg.head_dim → ℚ
  bo : Vec cfg.n_embd
  ln2g : Vec cfg.n_embd
  ln2b : Vec cfg.n_embd
  wfc : Fin (4 * cfg.n_embd) → Fin cfg.n_embd → ℚ
  bfc : Vec (4 * cfg.n_embd)
  wproj : Fin cfg.n_embd → Fin (4 * cfg.n_embd) → ℚ
  bproj : Vec cfg.n_embd

/-- Modelled from the spec: the full `Parameters` tree — token and position
embeddings, the per-layer block weights, the final layer norm and the
language-model head projection. -/
structure GPTParams (cfg : GPTConfig) where
  tok_emb : Fin cfg.vocab_size → Vec cfg.n_embd
  pos_emb : Fin cfg.block_size → Vec cfg.n_embd
  blocks : Fin cfg.n_layer → BlockParams cfg
  lnfg : Vec cfg.n_embd
  lnfb : Vec cfg.n_embd
  head : Fin cfg.vocab_size → Fin cfg.n_embd → ℚ

/-- Mean of the entries of a vector. -/
def vecMean {d : ℕ} (v : Vec d) : ℚ := (∑ i, v i) / d

/-- Population variance of the entries of a vector. -/
def vecVar {d : ℕ} (v : Vec d) : ℚ := (∑ i, (v i - vecMean v) ^ 2) / d

/-- Modelled from the spec: layer normalisation — centre and rescale each
position vector, then apply the learned gain and bias.  This is a purely
position-wise transformation. -/
def layerNorm (pr : Prims) {d : ℕ} (g b : Vec d) (v : Vec d) : Vec d :=
  fun i => g i * ((v i - vecMean v) * pr.rsqrtEps (vecVar v)) + b i

/-- Modelled from the spec: the scaled dot-product attention score between
query position `i` and key position `j` for head `h`. -/
def attnScore (pr : Prims) (cfg : GPTConfig) {T : ℕ} (bp : BlockParams cfg)
    (x : Fin T → Vec cfg.n_embd) (h : Fin cfg.n_head) (i j : Fin T) : ℚ :=
  pr.scale * dot (mulVec (bp.wq h) (x i) + bp.bq h)
                 (mulVec (bp.wk h) (x j) + bp.bk h)

/-- Modelled from the spec: the causal attention weight of query position `i`
on key position `j`, given the row `e` of attention scores.  Future positions
have their score set to negative infinity before softmax, so their
exponential weight is exactly `0`; the normalisation sums only over the
allowed positions `0..i`. -/
def attnWeight (pr : Prims) {T : ℕ} (e : Fin T → ℚ) (i j : Fin T) : ℚ :=
  if j ≤ i then
    pr.exp (e j) / ∑ j' ∈ Finset.univ.filter (fun j' => j' ≤ i), pr.exp (e j')
  else 0

/-- Modelled from the spec: the output of attention head `h` at query
position `i` — the attention-weighted sum of the value vectors. -/
def attnHead (pr : Prims) (cfg : GPTConfig) {T : ℕ} (bp : BlockParams cfg)
    (x : Fin T → Vec cfg.n_embd) (h : Fin cfg.n_head) (i : Fin T) :
    Vec cfg.head_dim :=
  fun k => ∑ j, attnWeight pr (attnScore pr cfg bp x h i) i j *
    (mulVec (bp.wv h) (x j) + bp.bv h) k

/-- Modelled from the spec: multi-head causal self-attention — concatenate the
head outputs and project back to the embedding width. -/
def causalSelfAttention (pr : Prims) (cfg : GPTConfig) {T : ℕ}
    (bp : BlockParams cfg) (x : Fin T → Vec cfg.n_embd) :
    Fin T → Vec cfg.n_embd :=
  fun i d => (∑ h, ∑ k, bp.wo d h k * attnHead pr cfg bp x h i k) + bp.bo d

/-- Modelled from the spec: the position-wise feed-forward sub-layer — expand
to width `4 * n_embd`, apply the activation, project back. -/
def mlp (pr : Prims) (cfg : GPTConfig) (bp : BlockParams cfg)
    (v : Vec cfg.n_embd) : Vec cfg.n_embd :=
  mulVec bp.wproj (fun j => pr.act ((mulVec bp.wfc v + bp.bfc) j)) + bp.bproj

/-- Modelled from the spec: one pre-normalisation transformer block —
`x + attn(ln1(x))` followed by `y + mlp(ln2(y))`.  Dropout is the identity
at inference time and is omitted. -/
def transformerBlock (pr : Prims) (cfg : GPTConfig) {T : ℕ}
    (bp : BlockParams cfg) (x : Fin T → Vec cfg.n_embd) :
    Fin T → Vec cfg.n_embd :=
  fun i =>
    (x i + causalSelfAttention pr cfg bp
        (fun t => layerNorm pr bp.ln1g bp.ln1b (x t)) i)
    + mlp pr cfg bp (layerNorm pr bp.ln2g bp.ln2b
        (x i + causalSelfAttention pr cfg bp
          (fun t => layerNorm pr bp.ln1g bp.ln1b (x t)) i))

/-- Modelled from the spec: token embedding plus learned position embedding
for positions `0..T-1`; requires `T ≤ block_size`. -/
def embedSeq {cfg : GPTConfig} (p : GPTParams cfg) {T : ℕ}
    (hT : T ≤ cfg.block_size) (tokens : Fin T → Fin cfg.vocab_size) :
    Fin T → Vec cfg.n_embd :=
  fun i => p.tok_emb (tokens i) + p.pos_emb ⟨i.val, lt_of_lt_of_le i.isLt hT⟩

/-- Modelled from the spec: the full forward pass `gpt` of `mingpt/model.py`
(not in the source tree) — embed, apply the blocks in order, final layer norm,
project to vocabulary logits.  The result has one logit vector per position. -/
def gpt (pr : Prims) (cfg : GPTConfig) (p : GPTParams cfg) {T : ℕ}
    (hT : T ≤ cfg.block_size) (tokens : Fin T → Fin cfg.vocab_size) :
    Fin T → Vec cfg.vocab_size :=
  fun i => mulVec p.head (layerNorm pr p.lnfg p.lnfb
    ((List.finRange cfg.n_layer).foldl
      (fun s bl => transformerBlock pr cfg (p.blocks bl) s)
      (embedSeq p hT tokens) i))

/-- Modelled from the spec: the batched forward pass.  A sequence length
exceeding the block size is a fatal configuration error, represented by
`none`; otherwise the call returns logits of shape `(batch, T, vocab)`. -/
def gptBatched (pr : Prims) (cfg : GPTConfig) (p : GPTParams cfg) {B T : ℕ}
    (tokens : Fin B → Fin T → Fin cfg.vocab_size) :
    Option (Fin B → Fin T → Vec cfg.vocab_size) :=
  if h : T ≤ cfg.block_size then some (fun b => gpt pr cfg p h (tokens b))
  else none

/-- Modelled from the spec: the inference-time model closure handed to the
sampler (the notebooks build it with `hk.transform(partial(gpt, ...))`): a
function from a token list to the list of per-position logit vectors. -/
def gptModel (pr : Prims) (cfg : GPTConfig) (p : GPTParams cfg)
    (x : List (Fin cfg.vocab_size)) : List (Vec cfg.vocab_size) :=
  if h : x.length ≤ cfg.block_size then
    (List.finRange x.length).map (fun i => gpt pr cfg p h (fun t => x.get t) i)
  else []

/-- Modelled from the spec: the reserved target value that marks a position
excluded from the loss; the observed dataset encoding uses `-100`. -/
def excludeSentinel : ℤ := -100

/-- A target entry is supervised when it is a valid vocabulary id, i.e. lies
in `[0, vocab_size)`; any out-of-range entry (in particular the exclude
sentinel) is excluded from the loss. -/
def isSupervised (V : ℕ) (t : ℤ) : Prop := 0 ≤ t ∧ t < V

instance (V : ℕ) (t : ℤ) : Decidable (isSupervised V t) := by
  unfold isSupervised; infer_instance

/-- Cross-entropy of one logit vector against an integer target id:
`log (sum of exponentials) - logit at the target`.  The target is only read
when it is in range, which is the case at every supervised position. -/
def ceAt (exp log : ℚ → ℚ) {V : ℕ} (lg : Vec V) (t : ℤ) : ℚ :=
  log (∑ j, exp (lg j)) - (if h : t.toNat < V then lg ⟨t.toNat, h⟩ else 0)

/-- Modelled from the spec: the masked next-token loss of `mingpt/model.py`
(not in the source tree) — the mean cross-entropy over exactly the supervised
target positions; a batch with no supervised position has loss `0` rather
than a division by zero. -/
def maskedCrossEntropy (exp log : ℚ → ℚ) {B T V : ℕ}
    (logits : Fin B → Fin T → Vec V) (y : Fin B → Fin T → ℤ) : ℚ :=
  let sup := Finset.univ.filter
    (fun bt : Fin B × Fin T => isSupervised V (y bt.1 bt.2))
  if sup.card = 0 then 0
  else (∑ bt ∈ sup, ceAt exp log (logits bt.1 bt.2) (y bt.1 bt.2)) / sup.card

/-- Modelled from the spec: `loss_fn` of `mingpt/model.py` (not in the source
tree) — run the forward pass on the inputs and take the masked cross-entropy
against the targets; fails (fatally, `none`) when the sequence length exceeds
the block size. -/
def loss_fn (exp log : ℚ → ℚ) (pr : Prims) (cfg : GPTConfig)
    (p : GPTParams cfg) {B T : ℕ}
    (x : Fin B → Fin T → Fin cfg.vocab_size) (y : Fin B → Fin T → ℤ) :
    Option ℚ :=
  (gptBatched pr cfg p x).map (fun lg => maskedCrossEntropy exp log lg y)

/-- Modelled from the spec: the `TrainerConfig` record of `mingpt/trainer.py`
(not in the source tree); field names follow the notebook call
`TrainerConfig(max_epochs=50, batch_size=256, learning_rate=6e-4,
lr_decay=True, warmup_tokens=1024, final_tokens=..., num_workers=4,
rng=subkey, step_tokens=3)`. -/
structure TrainerConfig where
  max_epochs : ℕ
  batch_size : ℕ
  learning_rate : ℚ
  lr_decay : Bool
  warmup_tokens : ℕ
  final_tokens : ℕ
  num_workers : ℕ
  rng : ℕ
  step_tokens : ℕ

/-- Modelled from the spec: the learning-rate multiplier as a function of the
cumulative supervised-token count.  Below `warmup_tokens` the rate ramps up
linearly from zero; between `warmup_tokens` and `final_tokens` it follows a
cosine decay from the base rate, floored at 10 percent of it; from
`final_tokens` on it is pinned at 10 percent.  `cosPi q` stands for
`cos (pi * q)`. -/
def lrMult (cosPi : ℚ → ℚ) (tc : TrainerConfig) (tokens : ℕ) : ℚ :=
  if tokens < tc.warmup_tokens then
    (tokens : ℚ) / max 1 (tc.warmup_tokens : ℚ)
  else if tokens < tc.final_tokens then
    max (1 / 10)
      ((1 + cosPi (((tokens : ℚ) - tc.warmup_tokens) /
        ((tc.final_tokens : ℚ) - tc.warmup_tokens))) / 2)
  else 1 / 10

/-- Modelled from the spec: the effective learning rate — the base rate times
the decay multiplier when decay is enabled, the base rate otherwise. -/
def lrSchedule (cosPi : ℚ → ℚ) (tc : TrainerConfig) (tokens : ℕ) : ℚ :=
  if tc.lr_decay then tc.learning_rate * lrMult cosPi tc tokens
  else tc.learning_rate

/-- Modelled from the spec: `init_params` of `mingpt/trainer.py` (not in the
source tree) — deterministically build the full parameter tree from a seeded
random source, here an explicit stream `draw seed index`; every tensor entry
reads the stream at a distinct encoded index. -/
def init_params (draw : ℕ → ℕ → ℚ) (cfg : GPTConfig) (seed : ℕ) :
    GPTParams cfg :=
  { tok_emb := fun v e => draw seed (Nat.pair 0 (Nat.pair v.val e.val))
    pos_emb := fun t e => draw seed (Nat.pair 1 (Nat.pair t.val e.val))
    blocks := fun l =>
      { ln1g := fun e => draw seed (Nat.pair 2 (Nat.pair l.val e.val))
        ln1b := fun e => draw seed (Nat.pair 3 (Nat.pair l.val e.val))
        wq := fun h i j => draw seed (Nat.pair 4
          (Nat.pair l.val (Nat.pair h.val (Nat.pair i.val j.val))))
        bq := fun h i => draw seed (Nat.pair 5
          (Nat.pair l.val (Nat.pair h.val i.val)))
        wk := fun h i j => draw seed (Nat.pair 6
          (Nat.pair l.val (Nat.pair h.val (Nat.pair i.val j.val))))
        bk := fun h i => draw seed (Nat.pair 7
          (Nat.pair l.val (Nat.pair h.val i.val)))
        wv := fun h i j => draw seed (Nat.pair 8
          (Nat.pair l.val (Nat.pair h.val (Nat.pair i.val j.val))))
        bv := fun h i => draw seed (Nat.pair 9
          (Nat.pair l.val (Nat.pair h.val i.val)))
        wo := fun d h k => draw seed (Nat.pair 10
          (Nat.pair l.val (Nat.pair d.val (Nat.pair h.val k.val))))
        bo := fun e => draw seed (Nat.pair 11 (Nat.pair l.val e.val))
        ln2g := fun e => draw seed (Nat.pair 12 (Nat.pair l.val e.val))
        ln2b := fun e => draw seed (Nat.pair 13 (Nat.pair l.val e.val))
        wfc := fun i j => draw seed (Nat.pair 14
          (Nat.pair l.val (Nat.pair i.val j.val)))
        bfc := fun i => draw seed (Nat.pair 15 (Nat.pair l.val i.val))
        wproj := fun i j => draw seed (Nat.pair 16
          (Nat.pair l.val (Nat.pair i.val j.val)))
        bproj := fun i => draw seed (Nat.pair 17 (Nat.pair l.val i.val)) }
    lnfg := fun e => draw seed (Nat.pair 18 e.val)
    lnfb := fun e => draw seed (Nat.pair 19 e.val)
    head := fun v e => draw seed (Nat.pair 20 (Nat.pair v.val e.val)) }

/-- Modelled from the spec: the mutable trainer state — the parameters and
the running count of processed supervised tokens consumed by the
learning-rate schedule. -/
structure TrainerState (cfg : GPTConfig) where
  params : GPTParams cfg
  tokens : ℕ

/-- Modelled from the spec: one optimizer update step of the trainer —
advance the token counter by the number of supervised tokens in the batch,
query the schedule, and apply the update rule (an external collaborator,
passed as `update`).  This is the only transition that writes `params`. -/
def optimizerUpdateStep {cfg : GPTConfig}
    (update : ℚ → GPTParams cfg → GPTParams cfg) (cosPi : ℚ → ℚ)
    (tc : TrainerConfig) (s : TrainerState cfg) (supervisedTokens : ℕ) :
    TrainerState cfg :=
  { params := update (lrSchedule cosPi tc (s.tokens + supervisedTokens))
      s.params
    tokens := s.tokens + supervisedTokens }

/-- Modelled from the spec: the per-epoch held-out evaluation — compute the
mean loss over the held-out batches with no parameter update, returning the
state unchanged together with the reported loss. -/
def evalHeldOut (exp log : ℚ → ℚ) (pr : Prims) {cfg : GPTConfig} {B T : ℕ}
    (hT : T ≤ cfg.block_size) (s : TrainerState cfg)
    (ds : List ((Fin B → Fin T → Fin cfg.vocab_size) × (Fin B → Fin T → ℤ))) :
    TrainerState cfg × ℚ :=
  (s, (ds.map (fun bt => maskedCrossEntropy exp log
        (fun b => gpt pr cfg s.params hT (bt.1 b)) bt.2)).sum / ds.length)

/-- Crop a context to its last `bs` tokens when it is longer (the sampler
feeds `x[-block_size:]` to the model). -/
def cropBlock {α : Type} (bs : ℕ) (x : List α) : List α :=
  if x.length ≤ bs then x else x.drop (x.length - bs)

/-- Number of indices strictly better than `i` under the ordering by logit
value descending with ties broken by smaller index; `rankOf l i = 0` exactly
for the first index attaining the maximal logit. -/
def rankOf {V : ℕ} (l : Vec V) (i : Fin V) : ℕ :=
  (Finset.univ.filter (fun j => l i < l j ∨ (l j = l i ∧ j < i))).card

/-- Modelled from the spec: top-k filtering — every logit outside the `k`
highest-scoring tokens is set to negative infinity before normalising, so its
exponential weight is exactly `0`; a kept index contributes `exp` of its
logit. -/
def topkWeight (exp : ℚ → ℚ) (k : ℕ) {V : ℕ} (l : Vec V) (i : Fin V) : ℚ :=
  if rankOf l i < k then exp (l i) else 0

/-- Unnormalised sampling weights: plain exponentials when no top-k filter is
requested, top-k filtered exponentials otherwise. -/
def sampleWeights (exp : ℚ → ℚ) (top_k : Option ℕ) {V : ℕ} (l : Vec V) :
    Fin V → ℚ :=
  match top_k with
  | none => fun i => exp (l i)
  | some k => topkWeight exp k l

/-- Normalise weights into a probability distribution (softmax combined with
the preceding exponential step). -/
def probsOf {V : ℕ} (w : Fin V → ℚ) : Fin V → ℚ := fun i => w i / ∑ j, w j

/-- The first index attaining the maximal value — greedy token choice. -/
def argmaxFin {V : ℕ} [NeZero V] (p : Fin V → ℚ) : Fin V :=
  (Finset.univ.filter (fun i => ∀ j, p j ≤ p i)).min' (by
    obtain ⟨m, _, hm⟩ := Finset.exists_max_image (Finset.univ : Finset (Fin V)) p
      ⟨⟨0, Nat.pos_of_ne_zero (NeZero.ne V)⟩, Finset.mem_univ _⟩
    exact ⟨m, Finset.mem_filter.mpr ⟨Finset.mem_univ _,
      fun j => hm j (Finset.mem_univ _)⟩⟩)

/-- Cumulative distribution of `p` up to index `i`. -/
def cdfAt {V : ℕ} (p : Fin V → ℚ) (i : Fin V) : ℚ :=
  ∑ j ∈ Finset.univ.filter (fun j => j ≤ i), p j

/-- Modelled from the spec: drawing one sample from a distribution given one
uniform random value `u` from the fixed random-state sequence, by inverse
transform sampling — the first index whose cumulative probability exceeds
`u`. -/
def drawFrom {V : ℕ} [NeZero V] (p : Fin V → ℚ) (u : ℚ) : Fin V :=
  if h : (Finset.univ.filter (fun i => u < cdfAt p i)).Nonempty then
    (Finset.univ.filter (fun i => u < cdfAt p i)).min' h
  else ⟨V - 1, Nat.sub_lt (Nat.pos_of_ne_zero (NeZero.ne V)) one_pos⟩

/-- The logits the sampler works on in one iteration: crop the context, run
the model, keep only the last position, scale by the reciprocal
temperature. -/
def scaledLast (cfg : GPTConfig)
    (model : List (Fin cfg.vocab_size) → List (Vec cfg.vocab_size))
    (temperature : ℚ) (x : List (Fin cfg.vocab_size)) : Vec cfg.vocab_size :=
  fun i => ((model (cropBlock cfg.block_size x)).getLastD (fun _ => 0)) i
    / temperature

/-- Modelled from the spec: one sampling iteration of `sample` in
`mingpt/utils.py` (not in the source tree) — crop, forward, last position,
temperature, optional top-k filter, softmax, then either draw stochastically
using the uniform value `u` or take the highest-probability token. -/
def sampleNext (exp : ℚ → ℚ) (cfg : GPTConfig) [NeZero cfg.vocab_size]
    (model : List (Fin cfg.vocab_size) → List (Vec cfg.vocab_size))
    (temperature : ℚ) (top_k : Option ℕ) (doSample : Bool) (u : ℚ)
    (x : List (Fin cfg.vocab_size)) : Fin cfg.vocab_size :=
  if doSample then
    drawFrom (probsOf (sampleWeights exp top_k
      (scaledLast cfg model temperature x))) u
  else
    argmaxFin (probsOf (sampleWeights exp top_k
      (scaledLast cfg model temperature x)))

/-- Modelled from the spec: the autoregressive sampling loop `sample` of
`mingpt/utils.py` (not in the source tree) — starting from the prompt,
repeat `steps` times: choose the next token from the current sequence and
append it; the stored sequence is never cropped or rewritten, only the model
input is cropped inside `sampleNext`. -/
def sample (exp : ℚ → ℚ) (cfg : GPTConfig) [NeZero cfg.vocab_size]
    (model : List (Fin cfg.vocab_size) → List (Vec cfg.vocab_size))
    (temperature : ℚ) (top_k : Option ℕ) (doSample : Bool) (us : ℕ → ℚ)
    (x : List (Fin cfg.vocab_size)) : ℕ → List (Fin cfg.vocab_size)
  | 0 => x
  | n + 1 =>
    sample exp cfg model temperature top_k doSample us x n ++
      [sampleNext exp cfg model temperature top_k doSample (us n)
        (sample exp cfg model temperature top_k doSample us x n)]

/-- Modelled from the spec: inference through the sampler viewed as a trainer
state transition — it reads the parameters and returns them untouched
together with the generated sequence. -/
def sampleWithState (exp : ℚ → ℚ) (pr : Prims) {cfg : GPTConfig}
    [NeZero cfg.vocab_size] (temperature : ℚ) (top_k : Option ℕ)
    (doSample : Bool) (us : ℕ → ℚ) (s : TrainerState cfg)
    (x : List (Fin cfg.vocab_size)) (N : ℕ) :
    TrainerState cfg × List (Fin cfg.vocab_size) :=
  (s, sample exp cfg (gptModel pr cfg s.params) temperature top_k doSample
      us x N)

namespace AdditionDataset

/-- From the source: `self.vocab_size = 10`, the ten digits. -/
def vocab_size : ℕ := 10

/-- From the source: `self.block_size = ndigit + ndigit + ndigit + 1 - 1`. -/
def block_size (ndigit : ℕ) : ℕ := ndigit + ndigit + ndigit + 1 - 1

/-- Zero-padded base-10 rendering of `n` with `width` digits, most
significant first; embeds the Python format `%0{width}d` for
`n < 10 ^ width`. -/
def renderDigits (width n : ℕ) : List ℕ :=
  (List.range width).map (fun i => n / 10 ^ (width - 1 - i) % 10)

/-- From the source: the digit sequence `dix` of problem `idx` — recover
`a = idx // 10^ndigit`, `b = idx % 10^ndigit`, `c = a + b`, and concatenate
their renderings with widths `ndigit`, `ndigit` and `ndigit + 1`. -/
def dix (ndigit idx : ℕ) : List ℕ :=
  renderDigits ndigit (idx / 10 ^ ndigit) ++
  renderDigits ndigit (idx % 10 ^ ndigit) ++
  renderDigits (ndigit + 1) (idx / 10 ^ ndigit + idx % 10 ^ ndigit)

/-- Embeds the in-place slice assignment `y[:k] = -100`: the first `k`
entries are replaced by the sentinel, the rest are kept. -/
def maskTo (k : ℕ) (y : List ℤ) : List ℤ :=
  List.replicate (min k y.length) (-100) ++ y.drop k

/-- From the source: `__getitem__` — `x` is the digit sequence without its
last element, `y` is the digit sequence without its first element with the
first `ndigit*2 - 1` positions masked by the sentinel `-100`. -/
def getItem (ndigit idx : ℕ) : List ℤ × List ℤ :=
  (List.map (fun v : ℕ => (v : ℤ)) (dix ndigit idx).dropLast,
   maskTo (ndigit * 2 - 1)
     (List.map (fun v : ℕ => (v : ℤ)) ((dix ndigit idx).drop 1)))

end AdditionDataset

/-- Two sequences agree at every position up to and including `i`. -/
def AgreeUpTo {α : Type} {T : ℕ} (i : Fin T) (x y : Fin T → α) : Prop :=
  ∀ k, k ≤ i → x k = y k

/-- All-zero block parameters, used to instantiate witnesses. -/
def zeroBlockParams (cfg : GPTConfig) : BlockParams cfg :=
  { ln1g := fun _ => 0, ln1b := fun _ => 0
    wq := fun _ _ _ => 0, bq := fun _ _ => 0
    wk := fun _ _ _ => 0, bk := fun _ _ => 0
    wv := fun _ _ _ => 0, bv := fun _ _ => 0
    wo := fun _ _ _ => 0, bo := fun _ => 0
    ln2g := fun _ => 0, ln2b := fun _ => 0
    wfc := fun _ _ => 0, bfc := fun _ => 0
    wproj := fun _ _ => 0, bproj := fun _ => 0 }

/-- All-zero parameters, used to instantiate witnesses. -/
def zeroParams (cfg : GPTConfig) : GPTParams cfg :=
  { tok_emb := fun _ _ => 0, pos_emb := fun _ _ => 0
    blocks := fun _ => zeroBlockParams cfg
    lnfg := fun _ => 0, lnfb := fun _ => 0
    head := fun _ _ => 0 }

/-- A tiny concrete configuration used to instantiate witnesses. -/
def cfgW : GPTConfig :=
  { vocab_size := 2, block_size := 2, n_layer := 1, n_head := 1, n_embd := 1 }

instance : NeZero cfgW.vocab_size := ⟨by decide⟩

/-- Identity-based scalar primitives used to instantiate witnesses. -/
def prW : Prims := { exp := id, scale := 1, act := id, rsqrtEps := id }

/-- A computable strictly monotone positive surrogate for the exponential,
used to instantiate witnesses. -/
def expW (q : ℚ) : ℚ := if 0 ≤ q then 1 + q else 1 / (1 - q)

/-- A computable surrogate for `q` mapped to `cos (pi * q)` — equal to it at
`0` and `1` and antitone on `[0, 1]` — used to instantiate witnesses. -/
def cosW (q : ℚ) : ℚ := 1 - 2 * q

/-- A small concrete trainer configuration used to instantiate witnesses. -/
def tcW : TrainerConfig :=
  { max_epochs := 50, batch_size := 256, learning_rate := 1, lr_decay := true
    warmup_tokens := 2, final_tokens := 4, num_workers := 4, rng := 0
    step_tokens := 3 }

/-! ## Theorems -/

/-- C2: the loss, given logits of shape `(batch, T, vocab)` and targets of
shape `(batch, T)`, is the mean cross-entropy over exactly the supervised
(non-sentinel) positions, and for a batch in which every target position
carries the exclude sentinel the loss is `0` with no division by zero. -/
theorem loss_fn_spec (expf logf : ℚ → ℚ) {B T V : ℕ}
    (logits : Fin B → Fin T → Vec V) (y : Fin B → Fin T → ℤ) :
    ((∀ b t, y b t = excludeSentinel) →
      maskedCrossEntropy expf logf logits y = 0)
    ∧ ((Finset.univ.filter
          (fun bt : Fin B × Fin T => isSupervised V (y bt.1 bt.2))).card ≠ 0 →
        maskedCrossEntropy expf logf logits y =
          (∑ bt ∈ Finset.univ.filter
              (fun bt : Fin B × Fin T => isSupervised V (y bt.1 bt.2)),
            ceAt expf logf (logits bt.1 bt.2) (y bt.1 bt.2)) /
          (Finset.univ.filter
            (fun bt : Fin B × Fin T => isSupervised V (y bt.1 bt.2))).card) := by
  constructor
  · intro hall
    have hempty : (Finset.univ.filter
        (fun bt : Fin B × Fin T => isSupervised V (y bt.1 bt.2))) = ∅ := by
      apply Finset.filter_eq_empty_iff.mpr
      intro bt _
      rw [hall bt.1 bt.2]
      unfold isSupervised excludeSentinel
      intro h
      exact absurd h.1 (by norm_num)
    simp [maskedCrossEntropy, hempty]
  · intro hne
    simp only [maskedCrossEntropy]
    rw [if_neg hne]

/-- Witness for `loss_fn_spec`: a 1 x 1 batch whose only target is the
sentinel has loss `0`. -/
theorem loss_fn_spec_witness :
    maskedCrossEntropy id id
      (fun (_ : Fin 1) (_ : Fin 1) (_ : Fin 1) => (0 : ℚ))
      (fun _ _ => excludeSentinel) = 0 :=
  (loss_fn_spec id id (fun _ _ _ => 0) (fun _ _ => excludeSentinel)).1
    (fun _ _ => rfl)

/-- C7: the batched forward pass succeeds, returning logits of shape
`(batch, T, vocab_size)` (enforced by the result type), exactly when
`T ≤ block_size`, and fails with a configuration error (`none`) exactly when
`T` exceeds the block size; the loss computation used by the trainer fails
under the same condition. -/
theorem gpt_shape_spec (pr : Prims) (expf logf : ℚ → ℚ) (cfg : GPTConfig)
    (p : GPTParams cfg) {B T : ℕ}
    (x : Fin B → Fin T → Fin cfg.vocab_size) (y : Fin B → Fin T → ℤ) :
    ((gptBatched pr cfg p x).isSome ↔ T ≤ cfg.block_size)
    ∧ ((loss_fn expf logf pr cfg p x y).isSome ↔ T ≤ cfg.block_size) := by
  have h1 : (gptBatched pr cfg p x).isSome ↔ T ≤ cfg.block_size := by
    unfold gptBatched
    by_cases h : T ≤ cfg.block_size <;> simp [h]
  refine ⟨h1, Iff.trans ?_ h1⟩
  unfold loss_fn
  cases gptBatched pr cfg p x <;> simp

/-- C6: initialization is a pure function of the random stream, the
configuration and the seed, and sampling is a pure function of the
parameters, the prompt and (in stochastic mode) the random-state sequence:
equal inputs produce equal outputs. -/
theorem determinism_spec (draw : ℕ → ℕ → ℚ) (expf : ℚ → ℚ) (pr : Prims)
    (cfg : GPTConfig) [NeZero cfg.vocab_size] (s s' : ℕ)
    (p p' : GPTParams cfg) (temperature : ℚ) (top_k : Option ℕ)
    (us us' : ℕ → ℚ) (x x' : List (Fin cfg.vocab_size)) (N : ℕ)
    (hs : s = s') (hp : p = p') (hx : x = x') (hus : us = us') :
    init_params draw cfg s = init_params draw cfg s'
    ∧ sample expf cfg (gptModel pr cfg p) temperature top_k false us x N =
        sample expf cfg (gptModel pr cfg p') temperature top_k false us' x' N
    ∧ sample expf cfg (gptModel pr cfg p) temperature top_k true us x N =
        sample expf cfg (gptModel pr cfg p') temperature top_k true us' x' N := by
  subst hs; subst hp; subst hx; subst hus
  exact ⟨rfl, rfl, rfl⟩

/-- Witness for `determinism_spec`: two initializations from the same seed
coincide on a concrete configuration. -/
theorem determinism_spec_witness :
    init_params (fun _ _ => 0) cfgW 42 = init_params (fun _ _ => 0) cfgW 42 :=
  (determinism_spec (fun _ _ => 0) id prW cfgW 42 42 (zeroParams cfgW)
    (zeroParams cfgW) 1 none (fun _ => 0) (fun _ => 0) [] [] 1
    rfl rfl rfl rfl).1

/-- C8: parameters are never mutated by inference or held-out evaluation —
both return the trainer state with `params` untouched — and the only
transition that writes `params` is the optimizer update step, which applies
the update rule. -/
theorem params_frame_spec (expf logf : ℚ → ℚ) (pr : Prims)
    {cfg : GPTConfig} [NeZero cfg.vocab_size] {B T : ℕ}
    (hT : T ≤ cfg.block_size)
    (update : ℚ → GPTParams cfg → GPTParams cfg) (cosPi : ℚ → ℚ)
    (tc : TrainerConfig) (s : TrainerState cfg)
    (ds : List ((Fin B → Fin T → Fin cfg.vocab_size) × (Fin B → Fin T → ℤ)))
    (temperature : ℚ) (top_k : Option ℕ) (doSample : Bool) (us : ℕ → ℚ)
    (x : List (Fin cfg.vocab_size)) (N n : ℕ) :
    (evalHeldOut expf logf pr hT s ds).1.params = s.params
    ∧ (sampleWithState expf pr temperature top_k doSample us s x N).1.params
        = s.params
    ∧ (optimizerUpdateStep update cosPi tc s n).params =
        update (lrSchedule cosPi tc (s.tokens + n)) s.params :=
  ⟨rfl, rfl, rfl⟩

/-- Witness for `params_frame_spec`: held-out evaluation on a concrete state
leaves the parameters unchanged. -/
theorem params_frame_spec_witness :
    (evalHeldOut id id prW (by decide : (1 : ℕ) ≤ cfgW.block_size)
      ⟨zeroParams cfgW, 0⟩
      ([] : List ((Fin 1 → Fin 1 → Fin cfgW.vocab_size) ×
        (Fin 1 → Fin 1 → ℤ)))).1.params = (zeroParams cfgW : GPTParams cfgW) :=
  (params_frame_spec id id prW (by decide) (fun _ q => q) cosW tcW
    ⟨zeroParams cfgW, 0⟩ [] 1 none false (fun _ => 0) [] 1 1).1


/-- C3: the learning-rate schedule is a pure function of the token count and
the configuration: with decay disabled it is constantly the base rate; with
decay enabled it ramps linearly from zero below `warmup_tokens`, equals the
base rate at `warmup_tokens`, is non-increasing beyond `warmup_tokens`, and
from `final_tokens` on is pinned at exactly one tenth of the base rate,
never zero.  `cosPi q` stands for `cos (pi * q)` and is assumed to satisfy
`cosPi 0 = 1` and to be antitone on `[0, 1]`. -/
theorem lr_schedule_spec (cosPi : ℚ → ℚ) (tc : TrainerConfig)
    (hcos0 : cosPi 0 = 1)
    (hanti : ∀ a b : ℚ, 0 ≤ a → a ≤ b → b ≤ 1 → cosPi b ≤ cosPi a)
    (hlr : 0 < tc.learning_rate)
    (hwf : tc.warmup_tokens < tc.final_tokens) :
    (tc.lr_decay = false → ∀ t, lrSchedule cosPi tc t = tc.learning_rate)
    ∧ (tc.lr_decay = true → ∀ t, t < tc.warmup_tokens →
        lrSchedule cosPi tc t =
          tc.learning_rate * ((t : ℚ) / max 1 (tc.warmup_tokens : ℚ)))
    ∧ (tc.lr_decay = true →
        lrSchedule cosPi tc tc.warmup_tokens = tc.learning_rate)
    ∧ (tc.lr_decay = true → ∀ t1 t2, tc.warmup_tokens ≤ t1 → t1 ≤ t2 →
        lrSchedule cosPi tc t2 ≤ lrSchedule cosPi tc t1)
    ∧ (tc.lr_decay = true → ∀ t, tc.final_tokens ≤ t →
        lrSchedule cosPi tc t = tc.learning_rate / 10 ∧
          lrSchedule cosPi tc t ≠ 0) := by
  refine ⟨?_, ?_, ?_, ?_, ?_⟩
  · intro hd t
    simp [lrSchedule, hd]
  · intro hd t ht
    simp [lrSchedule, hd, lrMult, ht]
  · intro hd
    have h1 : ¬ tc.warmup_tokens < tc.warmup_tokens := lt_irrefl _
    rw [lrSchedule, if_pos hd, lrMult, if_neg h1,
      if_pos hwf, sub_self, zero_div, hcos0]
    have hmax : max (1 / 10 : ℚ) ((1 + 1) / 2) = 1 := by norm_num
    rw [hmax, mul_one]
  · intro hd t1 t2 h1 h12
    have h2w : tc.warmup_tokens ≤ t2 := le_trans h1 h12
    rw [lrSchedule, if_pos hd,
      lrSchedule, if_pos hd]
    apply mul_le_mul_of_nonneg_left _ hlr.le
    rw [lrMult, lrMult, if_neg (not_lt.mpr h1), if_neg (not_lt.mpr h2w)]
    by_cases hf1 : t1 < tc.final_tokens
    · rw [if_pos hf1]
      by_cases hf2 : t2 < tc.final_tokens
      · rw [if_pos hf2]
        have hd0 : (0 : ℚ) < (tc.final_tokens : ℚ) - tc.warmup_tokens := by
          rw [sub_pos]
          exact_mod_cast hwf
        have hp1nn : 0 ≤ ((t1 : ℚ) - tc.warmup_tokens) /
            ((tc.final_tokens : ℚ) - tc.warmup_tokens) := by
          apply div_nonneg _ hd0.le
          rw [sub_nonneg]
          exact_mod_cast h1
        have hp12 : ((t1 : ℚ) - tc.warmup_tokens) /
            ((tc.final_tokens : ℚ) - tc.warmup_tokens) ≤
            ((t2 : ℚ) - tc.warmup_tokens) /
            ((tc.final_tokens : ℚ) - tc.warmup_tokens) := by
          apply (div_le_div_iff_of_pos_right hd0).mpr
          have h12q : (t1 : ℚ) ≤ (t2 : ℚ) := by exact_mod_cast h12
          linarith
        have hp2le : ((t2 : ℚ) - tc.warmup_tokens) /
            ((tc.final_tokens : ℚ) - tc.warmup_tokens) ≤ 1 := by
          rw [div_le_one hd0]
          have : (t2 : ℚ) ≤ (tc.final_tokens : ℚ) := by exact_mod_cast hf2.le
          linarith
        have hcc := hanti _ _ hp1nn hp12 hp2le
        exact max_le_max le_rfl (by linarith)
      · rw [if_neg hf2]
        exact le_max_left _ _
    · rw [if_neg hf1,
        if_neg (not_lt.mpr (le_trans (not_lt.mp hf1) h12))]
  · intro hd t ht
    have h1 : ¬ t < tc.warmup_tokens := by omega
    have h2 : ¬ t < tc.final_tokens := not_lt.mpr ht
    have hval : lrSchedule cosPi tc t = tc.learning_rate * (1 / 10) := by
      rw [lrSchedule, if_pos hd, lrMult,
        if_neg h1, if_neg h2]
    constructor
    · rw [hval]; ring
    · rw [hval]
      exact mul_ne_zero (ne_of_gt hlr) (by norm_num)

/-- Witness for `lr_schedule_spec`: with a concrete configuration
(base rate 1, warmup 2, decay horizon 4) the rate at 5 processed tokens is
pinned at one tenth and nonzero. -/
theorem lr_schedule_spec_witness :
    lrSchedule cosW tcW 5 = 1 / 10 ∧ lrSchedule cosW tcW 5 ≠ 0 := by
  have h := (lr_schedule_spec cosW tcW (by norm_num [cosW])
    (fun a b ha hab hb => by unfold cosW; linarith)
    (by norm_num [tcW]) (by norm_num [tcW])).2.2.2.2 rfl 5 (by norm_num [tcW])
  have h10 : tcW.learning_rate / 10 = 1 / 10 := by norm_num [tcW]
  exact ⟨h10 ▸ h.1, h.2⟩

theorem renderDigits_length (w n : ℕ) :
    (AdditionDataset.renderDigits w n).length = w := by
  simp [AdditionDataset.renderDigits]

theorem dix_length (ndigit idx : ℕ) :
    (AdditionDataset.dix ndigit idx).length = 3 * ndigit + 1 := by
  simp [AdditionDataset.dix, renderDigits_length]
  omega

theorem renderDigits_succ (w n : ℕ) :
    AdditionDataset.renderDigits (w + 1) n =
      AdditionDataset.renderDigits w (n / 10) ++ [n % 10] := by
  unfold AdditionDataset.renderDigits
  rw [List.range_succ, List.map_append]
  congr 1
  · apply List.map_congr_left
    intro i hi
    rw [List.mem_range] at hi
    have hwi : w + 1 - 1 - i = (w - 1 - i) + 1 := by omega
    rw [hwi, pow_succ, Nat.div_div_eq_div_mul, Nat.mul_comm]
  · simp

theorem ofDigits_renderDigits (w n : ℕ) (h : n < 10 ^ w) :
    Nat.ofDigits 10 (AdditionDataset.renderDigits w n).reverse = n := by
  induction w generalizing n with
  | zero =>
    have hn : n = 0 := by simpa using h
    subst hn
    simp [AdditionDataset.renderDigits, Nat.ofDigits_nil]
  | succ w ih =>
    rw [renderDigits_succ, List.reverse_append]
    have hrev : ([n % 10] : List ℕ).reverse = [n % 10] := rfl
    rw [hrev]
    show Nat.ofDigits 10
      (n % 10 :: (AdditionDataset.renderDigits w (n / 10)).reverse) = n
    rw [Nat.ofDigits_cons]
    rw [pow_succ] at h
    rw [ih (n / 10) ((Nat.div_lt_iff_lt_mul (by norm_num)).mpr h)]
    omega

theorem renderDigits_mem_lt (w n : ℕ) :
    ∀ z ∈ AdditionDataset.renderDigits w n, z < 10 := by
  intro z hz
  simp only [AdditionDataset.renderDigits, List.mem_map] at hz
  obtain ⟨i, _, rfl⟩ := hz
  exact Nat.mod_lt _ (by norm_num)

theorem dix_mem_lt (ndigit idx : ℕ) :
    ∀ z ∈ AdditionDataset.dix ndigit idx, z < 10 := by
  intro z hz
  simp only [AdditionDataset.dix, List.mem_append] at hz
  rcases hz with (h | h) | h
  · exact renderDigits_mem_lt _ _ z h
  · exact renderDigits_mem_lt _ _ z h
  · exact renderDigits_mem_lt _ _ z h

/-- C9: in every batch item produced by the dataset, every non-supervised
target position carries the sentinel `-100`, which lies outside the valid
vocabulary range `[0, vocab_size)` and is therefore distinct from every
valid token id. -/
theorem sentinel_spec (ndigit idx : ℕ) (hnd : 1 ≤ ndigit) :
    ((AdditionDataset.getItem ndigit idx).2).take (ndigit * 2 - 1) =
      List.replicate (ndigit * 2 - 1) (-100 : ℤ)
    ∧ ¬(0 ≤ (-100 : ℤ) ∧ (-100 : ℤ) < (AdditionDataset.vocab_size : ℤ))
    ∧ ∀ t : ℤ, 0 ≤ t → t < (AdditionDataset.vocab_size : ℤ) →
        t ≠ (-100 : ℤ) := by
  refine ⟨?_, by decide, fun t ht1 ht2 => by omega⟩
  show (AdditionDataset.maskTo (ndigit * 2 - 1)
    (List.map (fun v : ℕ => (v : ℤ))
      ((AdditionDataset.dix ndigit idx).drop 1))).take (ndigit * 2 - 1) = _
  have hL : (List.map (fun v : ℕ => (v : ℤ))
      ((AdditionDataset.dix ndigit idx).drop 1)).length = 3 * ndigit := by
    rw [List.length_map, List.length_drop, dix_length]
    omega
  unfold AdditionDataset.maskTo
  rw [hL, min_eq_left (by omega)]
  rw [List.take_append_of_le_length (le_of_eq (List.length_replicate ..).symm)]
  rw [List.take_replicate, min_self]

/-- C10: for every valid problem index, `getItem` returns a pair of equal
length `3 * ndigit`, which equals the block size; the underlying digit
string is the concatenation of the zero-padded renderings of `a`, `b` and
`c = a + b` with widths `ndigit`, `ndigit` and `ndigit + 1` (the rendering
decodes back to each number via `Nat.ofDigits`); `y` is `x` shifted left by
one position with the final result digit appended, and the entries of `y`
beyond the first `ndigit * 2 - 1` sentinel positions are genuine digits. -/
theorem addition_getItem_spec (ndigit idx : ℕ) (hnd : 1 ≤ ndigit)
    (hidx : idx < 10 ^ ndigit * 10 ^ ndigit) :
    (AdditionDataset.getItem ndigit idx).1.length = 3 * ndigit
    ∧ (AdditionDataset.getItem ndigit idx).2.length = 3 * ndigit
    ∧ AdditionDataset.block_size ndigit = 3 * ndigit
    ∧ AdditionDataset.dix ndigit idx =
        AdditionDataset.renderDigits ndigit (idx / 10 ^ ndigit) ++
        AdditionDataset.renderDigits ndigit (idx % 10 ^ ndigit) ++
        AdditionDataset.renderDigits (ndigit + 1)
          (idx / 10 ^ ndigit + idx % 10 ^ ndigit)
    ∧ Nat.ofDigits 10
        (AdditionDataset.renderDigits ndigit (idx / 10 ^ ndigit)).reverse =
        idx / 10 ^ ndigit
    ∧ Nat.ofDigits 10
        (AdditionDataset.renderDigits ndigit (idx % 10 ^ ndigit)).reverse =
        idx % 10 ^ ndigit
    ∧ Nat.ofDigits 10
        (AdditionDataset.renderDigits (ndigit + 1)
          (idx / 10 ^ ndigit + idx % 10 ^ ndigit)).reverse =
        idx / 10 ^ ndigit + idx % 10 ^ ndigit
    ∧ (AdditionDataset.getItem ndigit idx).2 =
        AdditionDataset.maskTo (ndigit * 2 - 1)
          ((AdditionDataset.getItem ndigit idx).1.drop 1 ++
            [(((idx / 10 ^ ndigit + idx % 10 ^ ndigit) % 10 : ℕ) : ℤ)])
    ∧ ∀ z ∈ (AdditionDataset.getItem ndigit idx).2.drop (ndigit * 2 - 1),
        0 ≤ z ∧ z < 10 := by
  have hpow : 0 < 10 ^ ndigit := pow_pos (by norm_num) ndigit
  have ha : idx / 10 ^ ndigit < 10 ^ ndigit :=
    (Nat.div_lt_iff_lt_mul hpow).mpr hidx
  have hb : idx % 10 ^ ndigit < 10 ^ ndigit := Nat.mod_lt idx hpow
  have hc : idx / 10 ^ ndigit + idx % 10 ^ ndigit < 10 ^ (ndigit + 1) := by
    have h10 : (10 : ℕ) ^ (ndigit + 1) = 10 ^ ndigit * 10 := pow_succ 10 ndigit
    omega
  have hL : (List.map (fun v : ℕ => (v : ℤ))
      ((AdditionDataset.dix ndigit idx).drop 1)).length = 3 * ndigit := by
    rw [List.length_map, List.length_drop, dix_length]
    omega
  have hsplit : AdditionDataset.dix ndigit idx =
      (AdditionDataset.renderDigits ndigit (idx / 10 ^ ndigit) ++
        AdditionDataset.renderDigits ndigit (idx % 10 ^ ndigit) ++
        AdditionDataset.renderDigits ndigit
          ((idx / 10 ^ ndigit + idx % 10 ^ ndigit) / 10)) ++
      [(idx / 10 ^ ndigit + idx % 10 ^ ndigit) % 10] := by
    unfold AdditionDataset.dix
    rw [renderDigits_succ]
    exact (List.append_assoc _ _ _).symm
  have hElen : (AdditionDataset.renderDigits ndigit (idx / 10 ^ ndigit) ++
      AdditionDataset.renderDigits ndigit (idx % 10 ^ ndigit) ++
      AdditionDataset.renderDigits ndigit
        ((idx / 10 ^ ndigit + idx % 10 ^ ndigit) / 10)).length =
      3 * ndigit := by
    rw [List.length_append, List.length_append, renderDigits_length,
      renderDigits_length, renderDigits_length]
    omega
  have hx : (AdditionDataset.getItem ndigit idx).1 =
      List.map (fun v : ℕ => (v : ℤ))
        (AdditionDataset.renderDigits ndigit (idx / 10 ^ ndigit) ++
          AdditionDataset.renderDigits ndigit (idx % 10 ^ ndigit) ++
          AdditionDataset.renderDigits ndigit
            ((idx / 10 ^ ndigit + idx % 10 ^ ndigit) / 10)) := by
    show List.map _ (AdditionDataset.dix ndigit idx).dropLast = _
    rw [hsplit, List.dropLast_concat]
  have hdrop : (AdditionDataset.dix ndigit idx).drop 1 =
      (AdditionDataset.renderDigits ndigit (idx / 10 ^ ndigit) ++
        AdditionDataset.renderDigits ndigit (idx % 10 ^ ndigit) ++
        AdditionDataset.renderDigits ndigit
          ((idx / 10 ^ ndigit + idx % 10 ^ ndigit) / 10)).drop 1 ++
      [(idx / 10 ^ ndigit + idx % 10 ^ ndigit) % 10] := by
    rw [hsplit]
    exact List.drop_append_of_le_length (by omega)
  refine ⟨?_, ?_, ?_, rfl, ?_, ?_, ?_, ?_, ?_⟩
  · show (List.map _ (AdditionDataset.dix ndigit idx).dropLast).length = _
    rw [List.length_map, List.length_dropLast, dix_length]
    omega
  · show (AdditionDataset.maskTo _ _).length = _
    unfold AdditionDataset.maskTo
    rw [List.length_append, List.length_replicate, List.length_drop, hL]
    omega
  · unfold AdditionDataset.block_size
    omega
  · exact ofDigits_renderDigits _ _ ha
  · exact ofDigits_renderDigits _ _ hb
  · exact ofDigits_renderDigits _ _ hc
  · show AdditionDataset.maskTo (ndigit * 2 - 1)
      (List.map (fun v : ℕ => (v : ℤ))
        ((AdditionDataset.dix ndigit idx).drop 1)) = _
    rw [hdrop, List.map_append, hx, ← List.map_drop]
    rfl
  · intro z hz
    have h9 : (AdditionDataset.getItem ndigit idx).2.drop (ndigit * 2 - 1) =
        (List.map (fun v : ℕ => (v : ℤ))
          ((AdditionDataset.dix ndigit idx).drop 1)).drop (ndigit * 2 - 1) := by
      show (AdditionDataset.maskTo _ _).drop _ = _
      unfold AdditionDataset.maskTo
      rw [hL, min_eq_left (by omega)]
      rw [List.drop_append_of_le_length
        (le_of_eq (List.length_replicate ..).symm)]
      simp
    rw [h9] at hz
    have hz' := List.mem_of_mem_drop hz
    rw [List.mem_map] at hz'
    obtain ⟨w, hw, rfl⟩ := hz'
    have hw' : w ∈ AdditionDataset.dix ndigit idx := List.mem_of_mem_drop hw
    refine ⟨Int.natCast_nonneg w, ?_⟩
    exact_mod_cast dix_mem_lt ndigit idx w hw'

/-- Witness for `sentinel_spec`: the masked positions of the notebook sample
`47 + 17` are all the sentinel. -/
theorem sentinel_spec_witness :
    ((AdditionDataset.getItem 2 4717).2).take (2 * 2 - 1) =
      List.replicate (2 * 2 - 1) (-100 : ℤ) :=
  (sentinel_spec 2 4717 (by norm_num)).1

/-- Witness for `addition_getItem_spec`: the notebook sample `47 + 17` has
inputs of length 6. -/
theorem addition_getItem_spec_witness :
    (AdditionDataset.getItem 2 4717).1.length = 3 * 2 :=
  (addition_getItem_spec 2 4717 (by norm_num) (by norm_num)).1

theorem sample_grow (expf : ℚ → ℚ) (cfg : GPTConfig) [NeZero cfg.vocab_size]
    (model : List (Fin cfg.vocab_size) → List (Vec cfg.vocab_size))
    (temperature : ℚ) (top_k : Option ℕ) (doSample : Bool) (us : ℕ → ℚ)
    (x : List (Fin cfg.vocab_size)) :
    ∀ N, (sample expf cfg model temperature top_k doSample us x N).length =
        x.length + N
      ∧ (sample expf cfg model temperature top_k doSample us x N).take
          x.length = x := by
  intro N
  induction N with
  | zero => exact ⟨rfl, List.take_length ..⟩
  | succ n ih =>
    constructor
    · show (sample expf cfg model temperature top_k doSample us x n ++
        [_]).length = x.length + (n + 1)
      rw [List.length_append, ih.1]
      rfl
    · have hx : x.length ≤
          (sample expf cfg model temperature top_k doSample us x n).length := by
        rw [ih.1]
        omega
      show (sample expf cfg model temperature top_k doSample us x n ++
        [_]).take x.length = x
      rw [List.take_append_of_le_length hx, ih.2]

/-- C4: the sampler returns the prompt extended by exactly `N` tokens; no
previously chosen token is ever removed or changed (the prompt is a prefix of
the output and step `N + 1` extends step `N` by the single token chosen by
`sampleNext`, which crops the context, runs the model, takes the last
position, scales by the reciprocal temperature, optionally top-k filters,
normalises and chooses by sampling or argmax). -/
theorem sample_spec (expf : ℚ → ℚ) (cfg : GPTConfig) [NeZero cfg.vocab_size]
    (model : List (Fin cfg.vocab_size) → List (Vec cfg.vocab_size))
    (temperature : ℚ) (top_k : Option ℕ) (doSample : Bool) (us : ℕ → ℚ)
    (x : List (Fin cfg.vocab_size)) (N : ℕ) :
    (sample expf cfg model temperature top_k doSample us x N).length =
      x.length + N
    ∧ (sample expf cfg model temperature top_k doSample us x N).take
        x.length = x
    ∧ sample expf cfg model temperature top_k doSample us x (N + 1) =
        sample expf cfg model temperature top_k doSample us x N ++
          [sampleNext expf cfg model temperature top_k doSample (us N)
            (sample expf cfg model temperature top_k doSample us x N)] :=
  ⟨(sample_grow expf cfg model temperature top_k doSample us x N).1,
   (sample_grow expf cfg model temperature top_k doSample us x N).2,
   rfl⟩

/-- Witness for `sample_spec`: three sampling steps from an empty prompt
yield three tokens. -/
theorem sample_spec_witness :
    (sample id cfgW (fun _ => []) 1 none false (fun _ => 0)
      ([] : List (Fin cfgW.vocab_size)) 3).length =
      ([] : List (Fin cfgW.vocab_size)).length + 3 :=
  (sample_spec id cfgW (fun _ => []) 1 none false (fun _ => 0) [] 3).1

theorem argmaxFin_max {V : ℕ} [NeZero V] (p : Fin V → ℚ) (j : Fin V) :
    p j ≤ p (argmaxFin p) := by
  have h := Finset.min'_mem
    (Finset.univ.filter (fun i => ∀ j, p j ≤ p i)) (by
      obtain ⟨m, _, hm⟩ := Finset.exists_max_image
        (Finset.univ : Finset (Fin V)) p
        ⟨⟨0, Nat.pos_of_ne_zero (NeZero.ne V)⟩, Finset.mem_univ _⟩
      exact ⟨m, Finset.mem_filter.mpr ⟨Finset.mem_univ _,
        fun j => hm j (Finset.mem_univ _)⟩⟩)
  rw [Finset.mem_filter] at h
  exact h.2 j

theorem argmaxFin_le {V : ℕ} [NeZero V] (p : Fin V → ℚ) (j : Fin V)
    (hj : ∀ k, p k ≤ p j) : argmaxFin p ≤ j :=
  Finset.min'_le _ _ (Finset.mem_filter.mpr ⟨Finset.mem_univ _, hj⟩)

theorem argmaxFin_eq_of_iff {V : ℕ} [NeZero V] (p q : Fin V → ℚ)
    (h : ∀ i, (∀ j, p j ≤ p i) ↔ (∀ j, q j ≤ q i)) :
    argmaxFin p = argmaxFin q := by
  apply le_antisymm
  · exact argmaxFin_le p (argmaxFin q)
      ((h (argmaxFin q)).mpr (fun j => argmaxFin_max q j))
  · exact argmaxFin_le q (argmaxFin p)
      ((h (argmaxFin p)).mp (fun j => argmaxFin_max p j))

theorem rankOf_zero_iff {V : ℕ} (l : Vec V) (i : Fin V) :
    rankOf l i = 0 ↔ ((∀ j, l j ≤ l i) ∧ ∀ j, l j = l i → i ≤ j) := by
  unfold rankOf
  rw [Finset.card_eq_zero, Finset.filter_eq_empty_iff]
  constructor
  · intro h
    constructor
    · intro j
      by_contra hlt
      exact h (Finset.mem_univ j) (Or.inl (not_le.mp hlt))
    · intro j hj
      by_contra hlt
      exact h (Finset.mem_univ j) (Or.inr ⟨hj, not_le.mp hlt⟩)
  · rintro ⟨h1, h2⟩ j _
    rintro (hlt | ⟨heq, hji⟩)
    · exact absurd (h1 j) (not_le.mpr hlt)
    · exact absurd (h2 j heq) (not_le.mpr hji)

theorem rankOf_zero_iff_argmax {V : ℕ} [NeZero V] (l : Vec V) (i : Fin V) :
    rankOf l i = 0 ↔ i = argmaxFin l := by
  rw [rankOf_zero_iff]
  constructor
  · rintro ⟨h1, h2⟩
    have hle : argmaxFin l ≤ i := argmaxFin_le l i h1
    have heq : l (argmaxFin l) = l i :=
      le_antisymm (h1 _) (argmaxFin_max l i)
    exact le_antisymm (h2 _ heq) hle
  · rintro rfl
    refine ⟨argmaxFin_max l, fun j hj => ?_⟩
    exact argmaxFin_le l j
      (fun k => le_trans (argmaxFin_max l k) (le_of_eq hj.symm))

theorem draw_top1_eq_argmax {V : ℕ} [NeZero V] (expf : ℚ → ℚ) (l : Vec V)
    (u : ℚ) (hm : StrictMono expf) (hpos : ∀ z, 0 < expf z)
    (hu0 : 0 ≤ u) (hu1 : u < 1) :
    drawFrom (probsOf (topkWeight expf 1 l)) u =
      argmaxFin (probsOf (fun i => expf (l i))) := by
  set m := argmaxFin l with hmdef
  have hw : topkWeight expf 1 l = fun i => if i = m then expf (l m) else 0 := by
    funext i
    unfold topkWeight
    simp only [Nat.lt_one_iff]
    by_cases h : i = m
    · rw [if_pos ((rankOf_zero_iff_argmax l i).mpr h), if_pos h, h]
    · rw [if_neg (fun hz => h ((rankOf_zero_iff_argmax l i).mp hz)), if_neg h]
  have hsum : (∑ j, topkWeight expf 1 l j) = expf (l m) := by
    rw [hw, Finset.sum_ite_eq' Finset.univ m (fun _ => expf (l m))]
    simp
  have hprobs : probsOf (topkWeight expf 1 l) =
      fun i => if i = m then 1 else 0 := by
    funext i
    unfold probsOf
    rw [hsum, hw]
    by_cases h : i = m
    · simp only [if_pos h]
      exact div_self (ne_of_gt (hpos (l m)))
    · simp only [if_neg h]
      exact zero_div _
  have hcdf : ∀ i, cdfAt (probsOf (topkWeight expf 1 l)) i =
      if m ≤ i then 1 else 0 := by
    intro i
    unfold cdfAt
    rw [hprobs, Finset.sum_ite_eq' (Finset.univ.filter (fun j => j ≤ i)) m
      (fun _ => (1 : ℚ))]
    simp [Finset.mem_filter]
  have hset : (Finset.univ.filter
      (fun i => u < cdfAt (probsOf (topkWeight expf 1 l)) i)) =
      Finset.univ.filter (fun i => m ≤ i) := by
    apply Finset.filter_congr
    intro i _
    rw [hcdf i]
    by_cases h : m ≤ i
    · simp only [if_pos h]
      exact iff_of_true hu1 h
    · simp only [if_neg h]
      exact iff_of_false (by linarith) h
  have hdraw : drawFrom (probsOf (topkWeight expf 1 l)) u = m := by
    unfold drawFrom
    simp only [hset]
    have hne : (Finset.univ.filter (fun i : Fin V => m ≤ i)).Nonempty :=
      ⟨m, Finset.mem_filter.mpr ⟨Finset.mem_univ _, le_refl m⟩⟩
    rw [dif_pos hne]
    apply le_antisymm
    · exact Finset.min'_le _ _
        (Finset.mem_filter.mpr ⟨Finset.mem_univ _, le_refl m⟩)
    · exact Finset.le_min' _ _ _ (fun y hy => (Finset.mem_filter.mp hy).2)
  have hS : (0 : ℚ) < ∑ j, expf (l j) :=
    Finset.sum_pos (fun j _ => hpos _)
      ⟨⟨0, Nat.pos_of_ne_zero (NeZero.ne V)⟩, Finset.mem_univ _⟩
  have hgreedy : argmaxFin (probsOf (fun i => expf (l i))) = m := by
    rw [hmdef]
    apply argmaxFin_eq_of_iff
    intro i
    apply forall_congr'
    intro j
    unfold probsOf
    rw [div_le_div_iff_of_pos_right hS, hm.le_iff_le]
  rw [hdraw, hgreedy]

theorem sampleNext_top1_greedy (expf : ℚ → ℚ) (cfg : GPTConfig)
    [NeZero cfg.vocab_size]
    (model : List (Fin cfg.vocab_size) → List (Vec cfg.vocab_size))
    (temperature u : ℚ) (x : List (Fin cfg.vocab_size))
    (hm : StrictMono expf) (hpos : ∀ z, 0 < expf z)
    (hu0 : 0 ≤ u) (hu1 : u < 1) :
    sampleNext expf cfg model temperature (some 1) true u x =
      sampleNext expf cfg model temperature none false u x := by
  unfold sampleNext
  rw [if_pos rfl, if_neg (fun h => Bool.false_ne_true h)]
  show drawFrom (probsOf (topkWeight expf 1
      (scaledLast cfg model temperature x))) u =
    argmaxFin (probsOf (fun i => expf (scaledLast cfg model temperature x i)))
  exact draw_top1_eq_argmax expf (scaledLast cfg model temperature x) u
    hm hpos hu0 hu1

/-- C5: stochastic sampling with `top_k = 1` produces exactly the same
output sequence as greedy sampling on the same prompt — restricting to the
single highest logit gives a point-mass distribution whose draw is the same
token as the softmax argmax, for any genuine exponential (strictly monotone
and positive) and any uniform values in `[0, 1)`. -/
theorem sample_topk1_eq_greedy (expf : ℚ → ℚ) (cfg : GPTConfig)
    [NeZero cfg.vocab_size]
    (model : List (Fin cfg.vocab_size) → List (Vec cfg.vocab_size))
    (temperature : ℚ) (us : ℕ → ℚ) (x : List (Fin cfg.vocab_size)) (N : ℕ)
    (hm : StrictMono expf) (hpos : ∀ z, 0 < expf z)
    (hus : ∀ n, 0 ≤ us n ∧ us n < 1) :
    sample expf cfg model temperature (some 1) true us x N =
      sample expf cfg model temperature none false us x N := by
  induction N with
  | zero => rfl
  | succ n ih =>
    show sample expf cfg model temperature (some 1) true us x n ++
        [sampleNext expf cfg model temperature (some 1) true (us n)
          (sample expf cfg model temperature (some 1) true us x n)] =
      sample expf cfg model temperature none false us x n ++
        [sampleNext expf cfg model temperature none false (us n)
          (sample expf cfg model temperature none false us x n)]
    rw [ih, sampleNext_top1_greedy expf cfg model temperature (us n)
      (sample expf cfg model temperature none false us x n)
      hm hpos (hus n).1 (hus n).2]

theorem expW_strictMono : StrictMono expW := by
  intro a b hab
  unfold expW
  by_cases ha : 0 ≤ a
  · rw [if_pos ha, if_pos (le_trans ha hab.le)]
    linarith
  · rw [if_neg ha]
    push_neg at ha
    by_cases hb : 0 ≤ b
    · rw [if_pos hb]
      have h1a : (0 : ℚ) < 1 - a := by linarith
      have hlt : 1 / (1 - a) < 1 := by
        rw [div_lt_one h1a]
        linarith
      linarith
    · rw [if_neg hb]
      push_neg at hb
      exact one_div_lt_one_div_of_lt (by linarith) (by linarith)

theorem expW_pos : ∀ z, 0 < expW z := by
  intro z
  unfold expW
  by_cases h : 0 ≤ z
  · rw [if_pos h]
    linarith
  · rw [if_neg h]
    push_neg at h
    exact div_pos one_pos (by linarith)

/-- Witness for `sample_topk1_eq_greedy`. -/
theorem sample_topk1_eq_greedy_witness :
    sample expW cfgW (fun _ => []) 1 (some 1) true (fun _ => 0)
        ([] : List (Fin cfgW.vocab_size)) 1 =
      sample expW cfgW (fun _ => []) 1 none false (fun _ => 0)
        ([] : List (Fin cfgW.vocab_size)) 1 :=
  sample_topk1_eq_greedy expW cfgW (fun _ => []) 1 (fun _ => 0) [] 1
    expW_strictMono expW_pos (fun _ => ⟨le_refl 0, by norm_num⟩)

theorem attnWeight_future (pr : Prims) {T : ℕ} (e : Fin T → ℚ) (i j : Fin T)
    (hij : i < j) : attnWeight pr e i j = 0 :=
  if_neg (not_le.mpr hij)

theorem attnHead_congr (pr : Prims) (cfg : GPTConfig) {T : ℕ}
    (bp : BlockParams cfg) {x y : Fin T → Vec cfg.n_embd} {i : Fin T}
    (hA : AgreeUpTo i x y) (h : Fin cfg.n_head) {i' : Fin T} (hi' : i' ≤ i) :
    attnHead pr cfg bp x h i' = attnHead pr cfg bp y h i' := by
  funext k
  unfold attnHead
  apply Finset.sum_congr rfl
  intro j _
  by_cases hj : j ≤ i'
  · have hsc : ∀ j'' : Fin T, j'' ≤ i' →
        attnScore pr cfg bp x h i' j'' = attnScore pr cfg bp y h i' j'' := by
      intro j'' hj''
      unfold attnScore
      rw [hA i' hi', hA j'' (le_trans hj'' hi')]
    have hwt : attnWeight pr (attnScore pr cfg bp x h i') i' j =
        attnWeight pr (attnScore pr cfg bp y h i') i' j := by
      unfold attnWeight
      rw [if_pos hj, if_pos hj, hsc j hj]
      congr 1
      apply Finset.sum_congr rfl
      intro j' hj'
      rw [hsc j' (Finset.mem_filter.mp hj').2]
    rw [hwt, hA j (le_trans hj hi')]
  · rw [attnWeight_future pr _ i' j (not_le.mp hj),
      attnWeight_future pr _ i' j (not_le.mp hj), zero_mul, zero_mul]

theorem causalSelfAttention_congr (pr : Prims) (cfg : GPTConfig) {T : ℕ}
    (bp : BlockParams cfg) {x y : Fin T → Vec cfg.n_embd} {i : Fin T}
    (hA : AgreeUpTo i x y) {i' : Fin T} (hi' : i' ≤ i) :
    causalSelfAttention pr cfg bp x i' = causalSelfAttention pr cfg bp y i' := by
  funext d
  unfold causalSelfAttention
  congr 1
  apply Finset.sum_congr rfl
  intro h _
  apply Finset.sum_congr rfl
  intro k _
  rw [attnHead_congr pr cfg bp hA h hi']

theorem transformerBlock_agree (pr : Prims) (cfg : GPTConfig) {T : ℕ}
    (bp : BlockParams cfg) {x y : Fin T → Vec cfg.n_embd} {i : Fin T}
    (hA : AgreeUpTo i x y) :
    AgreeUpTo i (transformerBlock pr cfg bp x) (transformerBlock pr cfg bp y) := by
  intro k hk
  have hLn : AgreeUpTo i (fun t => layerNorm pr bp.ln1g bp.ln1b (x t))
      (fun t => layerNorm pr bp.ln1g bp.ln1b (y t)) := by
    intro t ht
    show layerNorm pr bp.ln1g bp.ln1b (x t) =
      layerNorm pr bp.ln1g bp.ln1b (y t)
    rw [hA t ht]
  have hAtt : causalSelfAttention pr cfg bp
        (fun t => layerNorm pr bp.ln1g bp.ln1b (x t)) k =
      causalSelfAttention pr cfg bp
        (fun t => layerNorm pr bp.ln1g bp.ln1b (y t)) k :=
    causalSelfAttention_congr pr cfg bp hLn hk
  unfold transformerBlock
  rw [hA k hk, hAtt]

theorem foldBlocks_agree (pr : Prims) (cfg : GPTConfig) (p : GPTParams cfg)
    {T : ℕ} {i : Fin T} :
    ∀ (l : List (Fin cfg.n_layer)) {x y : Fin T → Vec cfg.n_embd},
      AgreeUpTo i x y →
      AgreeUpTo i
        (l.foldl (fun s bl => transformerBlock pr cfg (p.blocks bl) s) x)
        (l.foldl (fun s bl => transformerBlock pr cfg (p.blocks bl) s) y) := by
  intro l
  induction l with
  | nil => intro x y h; exact h
  | cons b bs ih =>
    intro x y h
    simp only [List.foldl_cons]
    exact ih (transformerBlock_agree pr cfg (p.blocks b) h)

/-- C1: causality of the forward pass — perturbing the token at a position
`j > i` does not change the output logits at position `i`, and the causal
attention weight of position `i` on any position `j > i` is exactly zero. -/
theorem causal_attention_spec (pr : Prims) (cfg : GPTConfig)
    (p : GPTParams cfg) {T : ℕ} (hT : T ≤ cfg.block_size)
    (t : Fin T → Fin cfg.vocab_size) (i j : Fin T) (v : Fin cfg.vocab_size)
    (hij : i < j) :
    gpt pr cfg p hT (Function.update t j v) i = gpt pr cfg p hT t i
    ∧ ∀ e : Fin T → ℚ, attnWeight pr e i j = 0 := by
  constructor
  · have hE : AgreeUpTo i (embedSeq p hT (Function.update t j v))
        (embedSeq p hT t) := by
      intro k hk
      unfold embedSeq
      rw [Function.update_noteq (ne_of_lt (lt_of_le_of_lt hk hij))]
    have hF := foldBlocks_agree pr cfg p (List.finRange cfg.n_layer) hE
    unfold gpt
    rw [hF i (le_refl i)]
  · intro e
    exact attnWeight_future pr e i j hij

/-- Witness for `causal_attention_spec`: on a two-position context,
changing the second token leaves the logits of the first unchanged. -/
theorem causal_attention_spec_witness :
    gpt prW cfgW (zeroParams cfgW) (by decide)
        (Function.update (fun _ : Fin 2 => (0 : Fin cfgW.vocab_size)) 1 1) 0 =
      gpt prW cfgW (zeroParams cfgW) (by decide)
        (fun _ : Fin 2 => (0 : Fin cfgW.vocab_size)) 0 :=
  (causal_attention_spec prW cfgW (zeroParams cfgW) (by decide)
    (fun _ : Fin 2 => 0) 0 1 1 (by decide)).1
